import Mathlib

/-!
Verification development for the HAR-extraction tools
(`extract_har_json.py` and `url_aggregate.py`).

The Python sources are shallowly embedded: JSON documents (and the Python
values obtained from `json.loads`) become the inductive type `Json`;
Python's dynamic attribute/key access, truthiness coercion (`x or d`),
`int(...)` coercion and exceptions are modelled explicitly, with
`Except Unit` playing the role of an uncaught Python exception.
String operations are implemented on `List Char` so that every
definition evaluates inside the kernel.
-/

set_option maxRecDepth 4000

namespace Har

/-- Values produced by Python's `json` module (and the dictionaries the
extractor itself builds).  Integer-valued number literals become `int`;
other numeric literals (floats, `NaN`, `Infinity`) keep their lexeme in
`float`, which is enough for the truthiness and coercion tests the
programs perform on them. -/
inductive Json where
  | null
  | bool (b : Bool)
  | int (n : Int)
  | float (lex : String)
  | str (s : String)
  | arr (elems : List Json)
  | obj (kvs : List (String × Json))

/-- Whether every mantissa digit of a float lexeme is zero (so the float
compares equal to `0.0` and is falsy in Python). -/
def floatLexZero (lex : String) : Bool :=
  let cs := lex.data.filter fun c => c.toNat ≠ 43 ∧ c.toNat ≠ 45 ∧ c.toNat ≠ 46
  let mantissa := cs.takeWhile fun c => c.toNat ≠ 101 ∧ c.toNat ≠ 69
  mantissa.all fun c => c.toNat == 48

/-- Python truthiness of a decoded JSON value (`bool(x)`). -/
def truthy : Json → Bool
  | .null => false
  | .bool b => b
  | .int n => n != 0
  | .float lex => !floatLexZero lex
  | .str s => !s.data.isEmpty
  | .arr xs => !xs.isEmpty
  | .obj kvs => !kvs.isEmpty

/-- First binding of a key in an association list (keys are unique in every
dictionary the model builds, mirroring Python dicts). -/
def pyLookup : List (String × Json) → String → Option Json
  | [], _ => none
  | kv :: kvs, k => if kv.1 = k then some kv.2 else pyLookup kvs k

/-- Python `d.get(k)`: `None` when the key is absent; raises
(`AttributeError`) when the receiver is not a dict. -/
def pyGetJ (j : Json) (k : String) : Except Unit Json :=
  match j with
  | .obj kvs => .ok ((pyLookup kvs k).getD .null)
  | _ => .error ()

/-- Python `d.get(k, default)`. -/
def pyGetD (j : Json) (k : String) (d : Json) : Except Unit Json :=
  match j with
  | .obj kvs => .ok ((pyLookup kvs k).getD d)
  | _ => .error ()

/-- Python `a or d` on a value and a default (short-circuit truthiness). -/
def pyOr (a d : Json) : Json := if truthy a then a else d

/-- Coercion of a Python value to `str` where the source calls a string
method on it; a non-string raises (`AttributeError` / `TypeError`). -/
def asStr : Json → Except Unit String
  | .str s => .ok s
  | _ => .error ()

/-- Characters removed by Python `str.strip()` (ASCII whitespace; the
exotic Unicode whitespace characters are not modelled). -/
def pyWsChar (c : Char) : Bool :=
  c.toNat == 32 || c.toNat == 9 || c.toNat == 10 || c.toNat == 13 ||
    c.toNat == 11 || c.toNat == 12

/-- Python `str.lstrip()`. -/
def pyLstrip (s : String) : String := ⟨s.data.dropWhile pyWsChar⟩

/-- Python `str.strip()`. -/
def pyStrip (s : String) : String :=
  ⟨((s.data.dropWhile pyWsChar).reverse.dropWhile pyWsChar).reverse⟩

/-- ASCII lower-casing of one character (Python `str.lower()` also folds
some non-ASCII letters; the inputs involved here are ASCII). -/
def lowerChar (c : Char) : Char :=
  if 65 ≤ c.toNat ∧ c.toNat ≤ 90 then Char.ofNat (c.toNat + 32) else c

/-- ASCII upper-casing of one character. -/
def upperChar (c : Char) : Char :=
  if 97 ≤ c.toNat ∧ c.toNat ≤ 122 then Char.ofNat (c.toNat - 32) else c

/-- Python `str.lower()`. -/
def pyLower (s : String) : String := ⟨s.data.map lowerChar⟩

/-- Python `str.upper()`. -/
def pyUpper (s : String) : String := ⟨s.data.map upperChar⟩

/-- Python `needle in hay` on strings (substring containment). -/
def strContains (hay needle : String) : Bool :=
  (List.range (hay.data.length + 1)).any fun i =>
    needle.data.isPrefixOf (hay.data.drop i)

/-- Python `s.startswith(p)`. -/
def strStartsWith (s p : String) : Bool := p.data.isPrefixOf s.data

/-- Python `s.endswith(p)`. -/
def strEndsWith (s p : String) : Bool := p.data.isSuffixOf s.data

/-- Lexicographic comparison of strings by code point, Python's `<=`. -/
def charListLe : List Char → List Char → Bool
  | [], _ => true
  | _ :: _, [] => false
  | a :: as, b :: bs =>
    if a.toNat < b.toNat then true
    else if a.toNat = b.toNat then charListLe as bs
    else false

/-- Python `int(x)` for the values that can reach it here: raises on a
non-numeric string or a non-numeric value.  (`int()` of a float lexeme
with an exponent is not modelled and raises in the model.) -/
def parsePyIntStr (s : String) : Option Int :=
  let cs := (s.data.dropWhile pyWsChar).reverse.dropWhile pyWsChar |>.reverse
  let (neg, ds) :=
    match cs with
    | c :: rest =>
      if c.toNat == 45 then (true, rest)
      else if c.toNat == 43 then (false, rest)
      else (false, cs)
    | [] => (false, cs)
  if ds.isEmpty || !(ds.all fun c => 48 ≤ c.toNat && c.toNat ≤ 57) then none
  else
    let n : Int := Int.ofNat (ds.foldl (fun a c => a * 10 + (c.toNat - 48)) 0)
    some (if neg then -n else n)

/-- Truncation of a simple decimal float lexeme (no exponent) to an Int. -/
def floatLexTrunc (lex : String) : Option Int :=
  let cs := lex.data
  let (neg, cs1) :=
    match cs with
    | c :: rest => if c.toNat == 45 then (true, rest) else (false, cs)
    | [] => (false, cs)
  let ip := cs1.takeWhile fun c => 48 ≤ c.toNat && c.toNat ≤ 57
  let rest := cs1.drop ip.length
  if rest.any (fun c => c.toNat == 101 || c.toNat == 69) || ip.isEmpty then none
  else
    let n : Int := Int.ofNat (ip.foldl (fun a c => a * 10 + (c.toNat - 48)) 0)
    some (if neg then -n else n)

/-- Python `int(x)` applied to a decoded JSON value. -/
def pyInt : Json → Except Unit Int
  | .int n => .ok n
  | .bool b => .ok (if b then 1 else 0)
  | .str s =>
    match parsePyIntStr s with
    | some n => .ok n
    | none => .error ()
  | .float lex =>
    match floatLexTrunc lex with
    | some n => .ok n
    | none => .error ()
  | _ => .error ()

/-! Model of `json.loads`: a recursive-descent parser for the JSON grammar
as accepted by Python's json module (with its `NaN` / `Infinity`
extensions).  Lone surrogate `\uXXXX` escapes, which Python would keep as
unpaired surrogate code units, are not representable in a Lean `String`
and are rejected by the model. -/

/-- JSON insignificant whitespace. -/
def jsonWsChar (c : Char) : Bool :=
  c.toNat == 32 || c.toNat == 9 || c.toNat == 10 || c.toNat == 13

/-- Skip JSON whitespace. -/
def skipWs (cs : List Char) : List Char := cs.dropWhile jsonWsChar

/-- ASCII digit test. -/
def isDigitC (c : Char) : Bool := 48 ≤ c.toNat && c.toNat ≤ 57

/-- Value of a hexadecimal digit. -/
def hexVal (c : Char) : Option Nat :=
  if 48 ≤ c.toNat ∧ c.toNat ≤ 57 then some (c.toNat - 48)
  else if 97 ≤ c.toNat ∧ c.toNat ≤ 102 then some (c.toNat - 87)
  else if 65 ≤ c.toNat ∧ c.toNat ≤ 70 then some (c.toNat - 55)
  else none

/-- Four hexadecimal digits of a `\uXXXX` escape. -/
def parseHex4 : List Char → Option (Nat × List Char)
  | a :: b :: c :: d :: rest =>
    match hexVal a, hexVal b, hexVal c, hexVal d with
    | some va, some vb, some vc, some vd =>
      some (va * 4096 + vb * 256 + vc * 16 + vd, rest)
    | _, _, _, _ => none
  | _ => none

/-- Body of a JSON string literal, after the opening quote; strict mode
(raw control characters are rejected). -/
def parseJStr (fuel : Nat) (cs : List Char) (acc : List Char) :
    Option (String × List Char) :=
  match fuel, cs with
  | 0, _ => none
  | _, [] => none
  | fuel + 1, c :: rest =>
    if c.toNat == 34 then some (⟨acc.reverse⟩, rest)
    else if c.toNat < 32 then none
    else if c.toNat == 92 then
      match rest with
      | [] => none
      | e :: rest2 =>
        if e.toNat == 34 then parseJStr fuel rest2 ('"' :: acc)
        else if e.toNat == 92 then parseJStr fuel rest2 ('\\' :: acc)
        else if e.toNat == 47 then parseJStr fuel rest2 ('/' :: acc)
        else if e.toNat == 98 then parseJStr fuel rest2 (Char.ofNat 8 :: acc)
        else if e.toNat == 102 then parseJStr fuel rest2 (Char.ofNat 12 :: acc)
        else if e.toNat == 110 then parseJStr fuel rest2 ('\n' :: acc)
        else if e.toNat == 114 then parseJStr fuel rest2 ('\r' :: acc)
        else if e.toNat == 116 then parseJStr fuel rest2 ('\t' :: acc)
        else if e.toNat == 117 then
          match parseHex4 rest2 with
          | none => none
          | some (n, rest3) =>
            if 55296 ≤ n ∧ n ≤ 56319 then
              match rest3 with
              | u :: v :: rest4 =>
                if u.toNat == 92 && v.toNat == 117 then
                  match parseHex4 rest4 with
                  | some (m, rest5) =>
                    if 56320 ≤ m ∧ m ≤ 57343 then
                      parseJStr fuel rest5
                        (Char.ofNat (65536 + (n - 55296) * 1024 + (m - 56320)) :: acc)
                    else none
                  | none => none
                else none
              | _ => none
            else if 56320 ≤ n ∧ n ≤ 57343 then none
            else parseJStr fuel rest3 (Char.ofNat n :: acc)
        else none
    else parseJStr fuel rest (c :: acc)

/-- Longest digit run and the remainder. -/
def takeDigits (cs : List Char) : List Char × List Char :=
  (cs.takeWhile isDigitC, cs.dropWhile isDigitC)

/-- Numeric value of a digit run. -/
def digitsToNat (ds : List Char) : Nat :=
  ds.foldl (fun a c => a * 10 + (c.toNat - 48)) 0

/-- Optional fraction part `.digits` of a number (no match leaves the
input untouched, as with the scanner's regular expression). -/
def parseFrac (cs : List Char) : List Char × List Char :=
  match cs with
  | c :: rest =>
    if c.toNat == 46 then
      let (ds, rest2) := takeDigits rest
      if ds.isEmpty then ([], cs) else ('.' :: ds, rest2)
    else ([], cs)
  | [] => ([], cs)

/-- Optional exponent part `[eE][+-]?digits` of a number. -/
def parseExp (cs : List Char) : List Char × List Char :=
  match cs with
  | c :: rest =>
    if c.toNat == 101 || c.toNat == 69 then
      match rest with
      | s :: rest2 =>
        if s.toNat == 43 || s.toNat == 45 then
          let (ds, rest3) := takeDigits rest2
          if ds.isEmpty then ([], cs) else (c :: s :: ds, rest3)
        else
          let (ds, rest3) := takeDigits rest
          if ds.isEmpty then ([], cs) else (c :: ds, rest3)
      | [] => ([], cs)
    else ([], cs)
  | [] => ([], cs)

/-- JSON number literal: `-? (0 | [1-9][0-9]*) frac? exp?`; an integer
literal becomes `Json.int`, anything else keeps its lexeme. -/
def parseNum (cs : List Char) : Option (Json × List Char) :=
  let (negChars, cs1) :=
    match cs with
    | c :: rest => if c.toNat == 45 then ([c], rest) else (([] : List Char), cs)
    | [] => ([], cs)
  match cs1 with
  | [] => none
  | c :: rest0 =>
    if !isDigitC c then none
    else
      let (intDs, rest1) := if c.toNat == 48 then ([c], rest0) else takeDigits cs1
      let (fracDs, rest2) := parseFrac rest1
      let (expDs, rest3) := parseExp rest2
      if fracDs.isEmpty && expDs.isEmpty then
        let n : Int := Int.ofNat (digitsToNat intDs)
        some (Json.int (if negChars.isEmpty then n else -n), rest3)
      else
        some (Json.float ⟨negChars ++ intDs ++ fracDs ++ expDs⟩, rest3)

/-- Insertion into a Python dict: an existing key keeps its position and
takes the new value, a new key goes to the end. -/
def dictInsert : List (String × Json) → String → Json → List (String × Json)
  | [], k, v => [(k, v)]
  | kv :: kvs, k, v =>
    if kv.1 = k then (k, v) :: kvs else kv :: dictInsert kvs k v

/-- Building a Python dict from key/value pairs in order. -/
def dictFold (ps : List (String × Json)) : List (String × Json) :=
  ps.foldl (fun d kv => dictInsert d kv.1 kv.2) []

mutual

/-- One JSON value, starting at a non-whitespace position. -/
def parseVal : Nat → List Char → Option (Json × List Char)
  | 0, _ => none
  | fuel + 1, cs =>
    match cs with
    | [] => none
    | c :: rest =>
      if c.toNat == 34 then
        match parseJStr (rest.length + 1) rest [] with
        | some (s, r) => some (Json.str s, r)
        | none => none
      else if c.toNat == 123 then parseObj fuel (skipWs rest) []
      else if c.toNat == 91 then parseArr fuel (skipWs rest) []
      else if List.isPrefixOf "null".data cs then some (Json.null, cs.drop 4)
      else if List.isPrefixOf "true".data cs then some (Json.bool true, cs.drop 4)
      else if List.isPrefixOf "false".data cs then some (Json.bool false, cs.drop 5)
      else if List.isPrefixOf "NaN".data cs then some (Json.float "NaN", cs.drop 3)
      else if List.isPrefixOf "Infinity".data cs then
        some (Json.float "Infinity", cs.drop 8)
      else if List.isPrefixOf "-Infinity".data cs then
        some (Json.float "-Infinity", cs.drop 9)
      else parseNum cs

/-- Array elements after `[` (whitespace already skipped). -/
def parseArr (fuel : Nat) (cs : List Char) (acc : List Json) :
    Option (Json × List Char) :=
  match fuel with
  | 0 => none
  | fuel + 1 =>
    match cs with
    | [] => none
    | c :: rest =>
      if c.toNat == 93 && acc.isEmpty then some (Json.arr [], rest)
      else
        match parseVal fuel cs with
        | none => none
        | some (v, r) =>
          match skipWs r with
          | [] => none
          | c2 :: r2 =>
            if c2.toNat == 44 then parseArr fuel (skipWs r2) (v :: acc)
            else if c2.toNat == 93 then some (Json.arr (v :: acc).reverse, r2)
            else none

/-- Object members after the opening brace (whitespace already skipped);
the collected pairs go through Python-dict insertion at the end. -/
def parseObj (fuel : Nat) (cs : List Char) (acc : List (String × Json)) :
    Option (Json × List Char) :=
  match fuel with
  | 0 => none
  | fuel + 1 =>
    match cs with
    | [] => none
    | c :: rest =>
      if c.toNat == 125 && acc.isEmpty then some (Json.obj [], rest)
      else if c.toNat == 34 then
        match parseJStr (rest.length + 1) rest [] with
        | none => none
        | some (k, r) =>
          match skipWs r with
          | [] => none
          | c2 :: r2 =>
            if c2.toNat == 58 then
              match parseVal fuel (skipWs r2) with
              | none => none
              | some (v, r3) =>
                match skipWs r3 with
                | [] => none
                | c3 :: r4 =>
                  if c3.toNat == 44 then parseObj fuel (skipWs r4) ((k, v) :: acc)
                  else if c3.toNat == 125 then
                    some (Json.obj (dictFold ((k, v) :: acc).reverse), r4)
                  else none
            else none
      else none

end

/-- Model of `json.loads`: parse one JSON document, requiring only
whitespace after it. -/
def jsonLoads (s : String) : Option Json :=
  let cs := skipWs s.data
  match parseVal (2 * cs.length + 8) cs with
  | some (v, r) => if (skipWs r).isEmpty then some v else none
  | none => none

/-! Model of `base64.b64decode` and of `bytes.decode("utf-8", errors=...)`. -/

/-- Value of a base64 alphabet character. -/
def b64Val (c : Char) : Option Nat :=
  if 65 ≤ c.toNat ∧ c.toNat ≤ 90 then some (c.toNat - 65)
  else if 97 ≤ c.toNat ∧ c.toNat ≤ 122 then some (c.toNat - 97 + 26)
  else if 48 ≤ c.toNat ∧ c.toNat ≤ 57 then some (c.toNat - 48 + 52)
  else if c.toNat = 43 then some 62
  else if c.toNat = 47 then some 63
  else none

/-- Bytes of a run of base64 6-bit values (length `% 4 ∈ {0, 2, 3}`). -/
def b64Bytes : List Nat → List Nat
  | a :: b :: c :: d :: rest =>
    (a * 4 + b / 16) :: ((b % 16) * 16 + c / 4) :: ((c % 4) * 64 + d) :: b64Bytes rest
  | [a, b] => [a * 4 + b / 16]
  | [a, b, c] => [a * 4 + b / 16, (b % 16) * 16 + c / 4]
  | _ => []

/-- Model of `base64.b64decode` on a `str`: non-ASCII input raises; other
characters outside the alphabet are discarded; the padded length must be
a multiple of four.  `none` is the raised `binascii.Error`. -/
def b64decode (s : String) : Option (List Nat) :=
  if s.data.any (fun c => 128 ≤ c.toNat) then none
  else
    let cs := s.data.filter fun c => (b64Val c).isSome || c.toNat == 61
    let dat := cs.takeWhile fun c => (b64Val c).isSome
    let pad := cs.drop dat.length
    if pad.any (fun c => c.toNat ≠ 61) then none
    else if (dat.length + pad.length) % 4 ≠ 0 then none
    else if 2 < pad.length then none
    else some (b64Bytes (dat.filterMap b64Val))

/-- Whether a byte is a UTF-8 continuation byte. -/
def utf8Cont (b : Nat) : Bool := 128 ≤ b && b < 192

/-- Range of the first continuation byte allowed after lead byte `b`
(UTF-8 shortest-form and surrogate restrictions). -/
def utf8FirstContLo (b : Nat) : Nat :=
  if b = 224 then 160 else if b = 240 then 144 else 128

/-- Upper end of the first continuation byte range after lead byte `b`. -/
def utf8FirstContHi (b : Nat) : Nat :=
  if b = 237 then 159 else if b = 244 then 143 else 191

/-- The characters emitted for one undecodable sequence: one replacement
character under `errors="replace"`, nothing under `errors="ignore"`. -/
def utf8Err (repl : Bool) : List Char := if repl then [Char.ofNat 65533] else []

/-- Incremental UTF-8 decoding with Python's maximal-subpart error
handling; `repl` selects `errors="replace"` over `errors="ignore"`. -/
def utf8Go (repl : Bool) : Nat → List Nat → List Char
  | 0, _ => []
  | _ + 1, [] => []
  | fuel + 1, b :: bs =>
    if b < 128 then Char.ofNat b :: utf8Go repl fuel bs
    else if 194 ≤ b ∧ b ≤ 223 then
      match bs with
      | [] => utf8Err repl
      | c :: bs2 =>
        if utf8Cont c then
          Char.ofNat ((b - 192) * 64 + (c - 128)) :: utf8Go repl fuel bs2
        else utf8Err repl ++ utf8Go repl fuel bs
    else if 224 ≤ b ∧ b ≤ 239 then
      match bs with
      | [] => utf8Err repl
      | c :: bs2 =>
        if utf8FirstContLo b ≤ c ∧ c ≤ utf8FirstContHi b then
          match bs2 with
          | [] => utf8Err repl
          | d :: bs3 =>
            if utf8Cont d then
              Char.ofNat ((b - 224) * 4096 + (c - 128) * 64 + (d - 128)) ::
                utf8Go repl fuel bs3
            else utf8Err repl ++ utf8Go repl fuel bs2
        else utf8Err repl ++ utf8Go repl fuel bs
    else if 240 ≤ b ∧ b ≤ 244 then
      match bs with
      | [] => utf8Err repl
      | c :: bs2 =>
        if utf8FirstContLo b ≤ c ∧ c ≤ utf8FirstContHi b then
          match bs2 with
          | [] => utf8Err repl
          | d :: bs3 =>
            if utf8Cont d then
              match bs3 with
              | [] => utf8Err repl
              | e :: bs4 =>
                if utf8Cont e then
                  Char.ofNat ((b - 240) * 262144 + (c - 128) * 4096 +
                      (d - 128) * 64 + (e - 128)) :: utf8Go repl fuel bs4
                else utf8Err repl ++ utf8Go repl fuel bs3
            else utf8Err repl ++ utf8Go repl fuel bs2
        else utf8Err repl ++ utf8Go repl fuel bs
    else utf8Err repl ++ utf8Go repl fuel bs

/-- Model of `bytes.decode("utf-8", errors="ignore")` (`repl = false`) and
`errors="replace"` (`repl = true`). -/
def utf8Decode (repl : Bool) (bytes : List Nat) : String :=
  ⟨utf8Go repl bytes.length bytes⟩

/-! Model of `urllib.parse.urlparse(url).path` and `os.path.splitext`,
as used by the classifier and the entry processor. -/

/-- ASCII letter test. -/
def isAlphaC (c : Char) : Bool :=
  (65 ≤ c.toNat && c.toNat ≤ 90) || (97 ≤ c.toNat && c.toNat ≤ 122)

/-- Characters allowed after the first letter of a URL scheme. -/
def schemeChar (c : Char) : Bool :=
  isAlphaC c || (48 ≤ c.toNat && c.toNat ≤ 57) ||
    c.toNat == 43 || c.toNat == 45 || c.toNat == 46

/-- Split a leading `scheme:` off when the candidate is well-formed,
returning the lower-cased scheme and the remainder. -/
def splitScheme (cs : List Char) : String × List Char :=
  match cs.findIdx? (fun c => c.toNat == 58) with
  | some i =>
    if 0 < i ∧ isAlphaC (cs.headD ' ') ∧ ((cs.take i).drop 1).all schemeChar then
      (⟨(cs.take i).map lowerChar⟩, cs.drop (i + 1))
    else ("", cs)
  | none => ("", cs)

/-- Schemes for which `urlparse` splits `;parameters` off the path. -/
def uses_params : List String :=
  ["", "ftp", "hdl", "prospero", "http", "imap", "https", "shttp", "rtsp",
   "rtsps", "rtspu", "sip", "sips", "mms", "sftp", "tel"]

/-- Remove a leading `//netloc` (up to the next `/`, `?` or `#`). -/
def splitNetloc (cs : List Char) : List Char :=
  if List.isPrefixOf ['/', '/'] cs then
    (cs.drop 2).dropWhile fun c => c.toNat ≠ 47 ∧ c.toNat ≠ 63 ∧ c.toNat ≠ 35
  else cs

/-- Keep what stands before the fragment (`#`) and the query (`?`). -/
def splitFragQuery (cs : List Char) : List Char :=
  (cs.takeWhile fun c => c.toNat ≠ 35).takeWhile fun c => c.toNat ≠ 63

/-- Remove the `;parameters` of the last path segment (`urlparse` splits
them off the path that `urlsplit` returns). -/
def splitParamsSeg (cs : List Char) : List Char :=
  match cs.reverse.findIdx? (fun c => c.toNat == 47) with
  | some k =>
    let i := cs.length - 1 - k
    cs.take i ++ (cs.drop i).takeWhile fun c => c.toNat ≠ 59
  | none => cs.takeWhile fun c => c.toNat ≠ 59

/-- Model of `urlparse(url).path`. -/
def urlparsePath (url : String) : String :=
  let (scheme, rest) := splitScheme url.data
  let path := splitFragQuery (splitNetloc rest)
  if scheme ∈ uses_params then ⟨splitParamsSeg path⟩ else ⟨path⟩

/-- Model of `os.path.splitext(p)[1]`: the extension starts at the last
dot of the basename, provided some earlier basename character is not a
dot (so dotfiles have no extension). -/
def splitextExt (p : String) : String :=
  let cs := p.data
  match cs.reverse.findIdx? (fun c => c.toNat == 46) with
  | none => ""
  | some kd =>
    let dotIdx := cs.length - 1 - kd
    let fnameStart : Option Nat :=
      match cs.reverse.findIdx? (fun c => c.toNat == 47) with
      | none => some 0
      | some ks =>
        let sepIdx := cs.length - 1 - ks
        if sepIdx < dotIdx then some (sepIdx + 1) else none
    match fnameStart with
    | none => ""
    | some start =>
      if ((cs.drop start).take (dotIdx - start)).any (fun c => c.toNat ≠ 46)
      then ⟨cs.drop dotIdx⟩ else ""

/-! Embedding of `extract_har_json.py`. -/

/-- Python `", ".join` style joining (`str.join`). -/
def sepJoin (sep : String) : List String → String
  | [] => ""
  | [x] => x
  | x :: y :: xs => x ++ sep ++ sepJoin sep (y :: xs)

mutual

/-- Python `repr` of a decoded JSON value (quote escaping inside strings
is not reproduced; the programs only ever show these to humans). -/
def pyRepr : Json → String
  | .null => "None"
  | .bool b => if b then "True" else "False"
  | .int n => toString n
  | .float lex => lex
  | .str s => "\x27" ++ s ++ "\x27"
  | .arr xs => "[" ++ sepJoin ", " (pyReprList xs) ++ "]"
  | .obj kvs => "\x7b" ++ sepJoin ", " (pyReprPairs kvs) ++ "\x7d"

/-- Helper of `pyRepr` on lists. -/
def pyReprList : List Json → List String
  | [] => []
  | x :: xs => pyRepr x :: pyReprList xs

/-- Helper of `pyRepr` on key/value pairs. -/
def pyReprPairs : List (String × Json) → List String
  | [] => []
  | kv :: kvs => ("\x27" ++ kv.1 ++ "\x27: " ++ pyRepr kv.2) :: pyReprPairs kvs

end

/-- Python `str(x)`. -/
def pyStrOf : Json → String
  | .str s => s
  | j => pyRepr j

/-- Source: the `prefixes` list of `strip_json_hardening_prefix`. -/
def hardening_prefixes : List String :=
  [")]\x7d\x27,\n", ")]\x7d\x27,", "while(1);\n", "while(1);",
   "for(;;);\n", "for(;;);"]

/-- Source: `strip_json_hardening_prefix`. -/
def strip_json_hardening_prefix (s : String) : String :=
  let s2 := pyLstrip s
  match hardening_prefixes.find? (fun p => strStartsWith s2 p) with
  | some p => pyLstrip ⟨s2.data.drop p.data.length⟩
  | none => s

/-- Source: `try_parse_json`.  The argument is the dynamic Python value the
call sites pass (`decode_body_text(...) or ""`, or `postData.get("text")`);
`lstrip` on a truthy non-string raises. -/
def try_parse_json (text : Json) : Except Unit (Option Json × Bool) :=
  if !truthy text then .ok (none, false)
  else
    match text with
    | .str t =>
      let s := pyStrip ( strip_json_hardening_prefix t)
      if s.data.isEmpty then .ok (none, false)
      else
        match jsonLoads s with
        | some v => .ok (some v, true)
        | none => .ok (none, false)
    | _ => .error ()

/-- Whether a content `encoding` field equals the literal tag `"base64"`. -/
def isBase64Tag : Json → Bool
  | .str s => s = "base64"
  | _ => false

/-- Source: `decode_body_text`.  `none` inside `.ok` is Python's `None`
(no text, or a swallowed decode exception); `.error` is the uncaught
`AttributeError` of `content.get` on a non-dict. -/
def decode_body_text (content : Json) : Except Unit (Option String) :=
  match pyGetJ content "text" with
  | .error e => .error e
  | .ok text =>
    match text with
    | .null => .ok none
    | _ =>
      match pyGetJ content "encoding" with
      | .error e => .error e
      | .ok enc =>
        if isBase64Tag enc then
          match text with
          | .str t =>
            match b64decode t with
            | some bytes => .ok (some (utf8Decode false bytes))
            | none => .ok none
          | _ => .ok none
        else .ok (some (pyStrOf text))

/-- Source: `get_entry_fields` (method, url, started, status, content). -/
def get_entry_fields (entry : Json) :
    Except Unit (Json × Json × Json × Int × Json) :=
  match pyGetD entry "request" (.obj []) with
  | .error e => .error e
  | .ok req =>
  match pyGetD entry "response" (.obj []) with
  | .error e => .error e
  | .ok res =>
  match pyGetJ req "url" with
  | .error e => .error e
  | .ok urlJ =>
  match pyGetJ req "method" with
  | .error e => .error e
  | .ok methodJ =>
  match pyGetJ entry "startedDateTime" with
  | .error e => .error e
  | .ok startedJ =>
  match pyGetJ res "status" with
  | .error e => .error e
  | .ok statusJ =>
  match pyInt (pyOr statusJ (.int 0)) with
  | .error e => .error e
  | .ok status =>
  match pyGetJ res "content" with
  | .error e => .error e
  | .ok contentJ =>
    .ok (pyOr methodJ (.str ""), pyOr urlJ (.str ""), pyOr startedJ (.str ""),
      status, pyOr contentJ (.obj []))

/-- Source: the `ext_block` set of `is_probable_api`. -/
def ext_block : List String :=
  [".js", ".css", ".png", ".jpg", ".jpeg", ".gif", ".svg", ".ico",
   ".woff", ".woff2", ".ttf", ".otf", ".map", ".mp4", ".webm", ".mp3",
   ".wav", ".ogg", ".pdf", ".zip", ".gz", ".br", ".webp", ".avif", ".heic",
   ".eot"]

/-- Source: the API-path segments of `is_probable_api`. -/
def api_segs : List String := ["/api/", "/v1/", "/v2/", "/graphql", "/wp-json/"]

/-- Source: the write-method set of `is_probable_api`. -/
def write_methods : List String := ["POST", "PUT", "PATCH", "DELETE"]

/-- Source: the JSON-looking-body fallback at the end of `is_probable_api`
(its `try` swallows every exception into `False`). -/
def api_fallback (content : Json) : Except Unit Bool :=
  match pyGetJ content "text" with
  | .error e => .error e
  | .ok textJ =>
    if !truthy textJ then .ok false
    else
      match pyGetJ content "encoding" with
      | .error e => .error e
      | .ok enc =>
        let s? : Option String :=
          if isBase64Tag enc then
            match textJ with
            | .str t => (b64decode t).map (utf8Decode false)
            | _ => none
          else
            match textJ with
            | .str t => some t
            | _ => none
        match s? with
        | none => .ok false
        | some t =>
          let s := pyStrip t
          .ok (strStartsWith s "\x7b" || strStartsWith s "[")

/-- Source: `is_probable_api`. -/
def is_probable_api (entry : Json) : Except Unit Bool :=
  match pyGetD entry "request" (.obj []) with
  | .error e => .error e
  | .ok req =>
  match pyGetD entry "response" (.obj []) with
  | .error e => .error e
  | .ok res =>
  match pyGetJ req "url" with
  | .error e => .error e
  | .ok urlJ =>
  match pyGetJ req "method" with
  | .error e => .error e
  | .ok methodJ =>
  match asStr (pyOr methodJ (.str "")) with
  | .error e => .error e
  | .ok method0 =>
  match pyGetJ res "content" with
  | .error e => .error e
  | .ok contentJ =>
  match pyGetJ (pyOr contentJ (.obj [])) "mimeType" with
  | .error e => .error e
  | .ok cm =>
  match pyGetJ res "mimeType" with
  | .error e => .error e
  | .ok rm =>
  match asStr (pyOr cm (pyOr rm (.str ""))) with
  | .error e => .error e
  | .ok mime0 =>
  match asStr (pyOr urlJ (.str "")) with
  | .error e => .error e
  | .ok urlS =>
    let method := pyUpper method0
    let mime := pyLower mime0
    let path := urlparsePath urlS
    let ext := pyLower (splitextExt path)
    if ext ∈ ext_block then .ok false
    else if strContains mime "json" then .ok true
    else if strEndsWith path ".json" then .ok true
    else if api_segs.any (fun seg => strContains (pyLower path) seg) then .ok true
    else if method ∈ write_methods then .ok true
    else api_fallback (pyOr contentJ (.obj []))

/-- One pair of the urlencoded-params dict comprehension: `none` is a
skipped parameter (falsy name).  A truthy non-string name (which Python
would accept as a non-string dict key) is outside the model. -/
def buildFormPair (p : Json) : Except Unit (Option (String × Json)) :=
  match pyGetJ p "name" with
  | .error e => .error e
  | .ok nameJ =>
    if !truthy nameJ then .ok none
    else
      match nameJ with
      | .str n =>
        match pyGetJ p "value" with
        | .error e => .error e
        | .ok v => .ok (some (n, v))
      | _ => .error ()

/-- Pairs retained by the params dict comprehension, in list order. -/
def formPairs : List Json → Except Unit (List (String × Json))
  | [] => .ok []
  | p :: ps =>
    match buildFormPair p with
    | .error e => .error e
    | .ok kv? =>
      match formPairs ps with
      | .error e => .error e
      | .ok rest =>
        .ok (match kv? with | some kv => kv :: rest | none => rest)

/-- Source: `try_extract_request_json`. -/
def try_extract_request_json (entry : Json) : Except Unit (Option Json × Bool) :=
  match pyGetD entry "request" (.obj []) with
  | .error e => .error e
  | .ok req =>
  match pyGetJ req "postData" with
  | .error e => .error e
  | .ok pdJ =>
    let post := pyOr pdJ (.obj [])
  match pyGetJ post "mimeType" with
  | .error e => .error e
  | .ok mimeJ =>
  match asStr (pyOr mimeJ (.str "")) with
  | .error e => .error e
  | .ok mime0 =>
    let mime := pyLower mime0
  match pyGetJ post "text" with
  | .error e => .error e
  | .ok text =>
    if !truthy text then .ok (none, false)
    else
      match
        (if strContains mime "json" then
          match try_parse_json text with
          | .error e => .error e
          | .ok (obj?, ok) =>
            .ok (if ok then some (obj?, true) else none)
        else .ok none : Except Unit (Option (Option Json × Bool))) with
      | .error e => .error e
      | .ok (some r) => .ok r
      | .ok none =>
        match
          (if strContains mime "x-www-form-urlencoded" then
            match pyGetJ post "params" with
            | .error e => .error e
            | .ok params =>
              match params with
              | .arr ps =>
                match formPairs ps with
                | .error e => .error e
                | .ok pairs => .ok (some (some (Json.obj (dictFold pairs)), true))
              | _ => .ok none
          else .ok none : Except Unit (Option (Option Json × Bool))) with
        | .error e => .error e
        | .ok (some r) => .ok r
        | .ok none =>
          match try_parse_json text with
          | .error e => .error e
          | .ok (obj?, ok) =>
            .ok (if ok then (obj?, true) else (none, false))

/-- One CSV summary row.  The two JSON-file-path columns require the SHA-1
file naming and are filesystem artefacts outside the model; every other
column is kept. -/
structure SummaryRow where
  index : Nat
  startedDateTime : Json
  method : Json
  url : Json
  status : Int
  response_mimeType : Json
  is_probable_api : Bool
  response_is_json : Bool
  request_is_json : Bool

/-- Source: the `include` decision of the entry loop in `main`, verbatim. -/
def includeDecision (probable_api response_is_json inj : Bool) : Bool :=
  if probable_api && (response_is_json || inj) then true
  else if response_is_json then true
  else false

/-- One iteration of the entry loop of `main` (the body of its
`try`): `.error` is an exception caught at the entry boundary (a warning
plus `continue`), `.ok none` a row excluded by the include decision. -/
def processEntry (idx : Nat) (entry : Json) (inj : Bool) :
    Except Unit (Option SummaryRow) :=
  match get_entry_fields entry with
  | .error e => .error e
  | .ok (method, url, started, status, content) =>
  match is_probable_api entry with
  | .error e => .error e
  | .ok probable_api =>
  match decode_body_text content with
  | .error e => .error e
  | .ok decoded =>
  match try_parse_json (Json.str (decoded.getD "")) with
  | .error e => .error e
  | .ok (_response_obj, response_is_json) =>
    if !includeDecision probable_api response_is_json inj then .ok none
    else
      match asStr url with
      | .error e => .error e
      | .ok _urlS =>
        match try_extract_request_json entry with
        | .error e => .error e
        | .ok (_req_obj, req_is_json) =>
        match pyGetJ content "mimeType" with
        | .error e => .error e
        | .ok cm =>
          .ok (some
            { index := idx, startedDateTime := started, method := method,
              url := url, status := status,
              response_mimeType := pyOr cm (.str ""),
              is_probable_api := probable_api,
              response_is_json := response_is_json,
              request_is_json := req_is_json })

/-- Source: the `for idx, entry in enumerate(entries, start=1)` loop of
`main`, collecting `summary_rows`. -/
def processLoop (inj : Bool) : Nat → List Json → List SummaryRow
  | _, [] => []
  | idx, e :: es =>
    match processEntry idx e inj with
    | .ok (some row) => row :: processLoop inj (idx + 1) es
    | .ok none => processLoop inj (idx + 1) es
    | .error _ => processLoop inj (idx + 1) es

/-- Process outcome of the extractor: an exit code, or an uncaught
exception outside the per-entry isolation. -/
inductive MainResult where
  | code (n : Nat)
  | pycrash

/-- Source: `entries = (((har or ...).get("log") or ...).get("entries") or [])`. -/
def entriesOf (har : Json) : Except Unit Json :=
  match pyGetJ (pyOr har (.obj [])) "log" with
  | .error e => .error e
  | .ok logJ =>
    match pyGetJ (pyOr logJ (.obj [])) "entries" with
    | .error e => .error e
    | .ok entriesJ => .ok (pyOr entriesJ (.arr []))

/-- Python iteration over the value found at `log.entries` (dicts iterate
their keys, strings their characters; other non-lists raise). -/
def pyIterate : Json → Except Unit (List Json)
  | .arr xs => .ok xs
  | .obj kvs => .ok (kvs.map fun kv => Json.str kv.1)
  | .str s => .ok (s.data.map fun c => Json.str ⟨[c]⟩)
  | _ => .error ()

/-- Source: `main` of `extract_har_json.py`, over an abstract input file
(`none` = file missing).  Directory creation, CSV writing and the final
report are I/O effects outside the model. -/
def runExtractor (file : Option String) (inj : Bool) : MainResult :=
  match file with
  | none => .code 2
  | some contents =>
    match jsonLoads contents with
    | none => .code 2
    | some har =>
      match entriesOf har with
      | .error _ => .pycrash
      | .ok entriesJ =>
        if !truthy entriesJ then .code 0
        else
          match pyIterate entriesJ with
          | .error _ => .pycrash
          | .ok es =>
            let _ := processLoop inj 1 es
            .code 0

/-! Embedding of `url_aggregate.py`. -/

/-- One input row of the aggregator, as `csv.DictReader` presents it (a
missing column reads as the empty string through `row.get(...) or ""`). -/
structure InRow where
  url : String
  status : String
  response_json_file : String

/-- Per-url state of the aggregator.  Python's sets are modelled as
first-insertion-ordered duplicate-free lists; the output only ever sorts
them, so the representation order is immaterial. -/
structure AggRow where
  url : String
  statuses : List String
  files : List String

/-- One output row of the aggregator. -/
structure OutRow where
  url : String
  statuses : String
  response_files : String

/-- Set insertion (`set.add`) on the list representation. -/
def addSet (xs : List String) (x : String) : List String :=
  if x ∈ xs then xs else xs ++ [x]

/-- Source: the body of the aggregator's input loop for one row. -/
def aggStep (m : List AggRow) (r : InRow) : List AggRow :=
  let url := pyStrip r.url
  if url = "" then m
  else
    let status := pyStrip r.status
    let file := pyStrip r.response_json_file
    let m1 := if m.any (fun a => a.url = url) then m else m ++ [⟨url, [], []⟩]
    m1.map fun a =>
      if a.url = url then
        ⟨a.url,
          if status = "" then a.statuses else addSet a.statuses status,
          if file = "" then a.files else addSet a.files file⟩
      else a

/-- Source: the aggregator's input loop over all rows (the `OrderedDict`
is an insertion-ordered association list). -/
def aggScan (rows : List InRow) : List AggRow := rows.foldl aggStep []

/-- Python `sorted(xs, key=lambda s: (len(s), s))` as a relation. -/
def statusKeyLe (a b : String) : Prop :=
  a.data.length < b.data.length ∨
    (a.data.length = b.data.length ∧ charListLe a.data b.data = true)

instance : DecidableRel statusKeyLe := fun a b => by
  unfold statusKeyLe; infer_instance

/-- Python `sorted(xs)` on strings as a relation. -/
def lexLe (a b : String) : Prop := charListLe a.data b.data = true

instance : DecidableRel lexLe := fun a b => by
  unfold lexLe; infer_instance

/-- Source: the aggregator's output loop (`sorted` is modelled by
insertion sort, which agrees with Python's stable sort on the
duplicate-free sets being sorted). -/
def urlAggregate (rows : List InRow) (sep : String) : List OutRow :=
  (aggScan rows).map fun a =>
    ⟨a.url, sepJoin sep (List.insertionSort statusKeyLe a.statuses),
      sepJoin sep (List.insertionSort lexLe a.files)⟩

/-- First-seen-order deduplication, the order in which an insertion-ordered
dict or set enumerates its members. -/
def firstSeen (xs : List String) : List String := xs.foldl addSet []

/-- Specification-side reading (§4.6): the unique non-empty urls in
first-seen order. -/
def specAggUrls (rows : List InRow) : List String :=
  firstSeen ((rows.map fun r => pyStrip r.url).filter fun u => u ≠ "")

/-- Specification-side reading (§4.6): the non-empty values of one column
collected for one url, in first-seen order. -/
def collectVals (g : InRow → String) (rows : List InRow) (u : String) :
    List String :=
  firstSeen (((rows.filter fun r => pyStrip r.url = u).map
    fun r => pyStrip (g r)).filter fun s => s ≠ "")

/-- Specification-side reading (§4.6): the status set collected for one url. -/
def specAggStatuses (rows : List InRow) (u : String) : List String :=
  collectVals (fun r => r.status) rows u

/-- Specification-side reading (§4.6): the file set collected for one url. -/
def specAggFiles (rows : List InRow) (u : String) : List String :=
  collectVals (fun r => r.response_json_file) rows u

/-- Specification-side reading of the whole aggregation (§4.6): one record
per unique non-empty url in first-seen order, statuses sorted by
(length, then lexicographic), files sorted lexicographically, joined with
the separator. -/
def urlAggregateSpec (rows : List InRow) (sep : String) : List OutRow :=
  (specAggUrls rows).map fun u =>
    ⟨u, sepJoin sep (List.insertionSort statusKeyLe (specAggStatuses rows u)),
      sepJoin sep (List.insertionSort lexLe (specAggFiles rows u))⟩

/-! Helper lemmas shared by several claims. -/

/-- The `or ""` coercion is the identity on strings. -/
theorem pyOr_str (m : String) : pyOr (Json.str m) (Json.str "") = Json.str m := by
  by_cases h : m.data.isEmpty
  · have : m = "" := by
      cases m with
      | mk d => cases d with
        | nil => rfl
        | cons c cs => simp [String.data] at h
    simp [this, pyOr, truthy]
  · simp [pyOr, truthy, h]

/-- A non-empty string is truthy. -/
theorem truthy_str (t : String) (h : t ≠ "") : truthy (Json.str t) = true := by
  cases t with
  | mk d => cases d with
    | nil => exact absurd rfl h
    | cons c cs => simp [truthy]

/-! Claim C9: exit codes of the extractor. -/

/-- C9: the extractor exits with code 2 when the input file is missing or
the top-level document fails to parse as JSON, and exits with code 0 when
the capture contains zero entries (the extracted `log.entries` value is
falsy after the defaulting chain). -/
theorem C9_exit_codes :
    (∀ inj, runExtractor none inj = .code 2) ∧
    (∀ s inj, jsonLoads s = none → runExtractor (some s) inj = .code 2) ∧
    (∀ s har entriesJ inj, jsonLoads s = some har → entriesOf har = .ok entriesJ →
      truthy entriesJ = false → runExtractor (some s) inj = .code 0) := by
  refine ⟨fun _ => rfl, fun s inj h => ?_, fun s har entriesJ inj h1 h2 h3 => ?_⟩
  · simp [runExtractor, h]
  · simp [runExtractor, h1, h2, h3]

/-- Witness for C9 at concrete inputs: a missing file, an unparsable
document, and an entry-free capture. -/
theorem C9_exit_codes_witness :
    runExtractor none false = .code 2 ∧
    runExtractor (some "not json") false = .code 2 ∧
    runExtractor (some "\x7b\x7d") false = .code 0 :=
  ⟨C9_exit_codes.1 false,
   C9_exit_codes.2.1 "not json" false rfl,
   C9_exit_codes.2.2 "\x7b\x7d" (Json.obj []) (Json.arr []) false rfl rfl rfl⟩

/-! Claim C2: the base64 body decoding path. -/

/-- Counterexample to C2: on the base64 encoding of the bytes
`0xFF 0x41`, the decoder yields `"A"` — the undecodable byte is dropped
(`errors="ignore"`), not replaced by U+FFFD as the claim states. -/
theorem C2_counterexample :
    decode_body_text
        (Json.obj [("text", Json.str "/0E="), ("encoding", Json.str "base64")])
      = .ok (some "A") ∧
    b64decode "/0E=" = some [255, 65] ∧
    utf8Decode true [255, 65] = "�A" ∧
    ("A" : String) ≠ "�A" :=
  ⟨rfl, rfl, rfl, by decide⟩

/-- C2 amended: for every content object whose encoding tag equals
"base64" and whose text is a string, the decoder base64-decodes it and
then UTF-8-decodes the bytes dropping undecodable byte sequences
(`errors="ignore"`), and it never fails hard: a failed base64 decode
becomes an absent value, not an exception. -/
theorem C2_base64_ignores (content : Json) (s : String)
    (htext : pyGetJ content "text" = .ok (Json.str s))
    (henc : pyGetJ content "encoding" = .ok (Json.str "base64")) :
    decode_body_text content = .ok ((b64decode s).map (utf8Decode false)) := by
  cases content with
  | obj kvs =>
    have h1 : (pyLookup kvs "text").getD .null = Json.str s := by
      simpa [pyGetJ] using htext
    have h2 : (pyLookup kvs "encoding").getD .null = Json.str "base64" := by
      simpa [pyGetJ] using henc
    simp only [decode_body_text, pyGetJ, h1, h2, isBase64Tag]
    cases hb : b64decode s <;> simp [hb]
  | null => exact absurd htext (by simp [pyGetJ])
  | bool b => exact absurd htext (by simp [pyGetJ])
  | int n => exact absurd htext (by simp [pyGetJ])
  | float lex => exact absurd htext (by simp [pyGetJ])
  | str t => exact absurd htext (by simp [pyGetJ])
  | arr xs => exact absurd htext (by simp [pyGetJ])

/-- Witness for the amended C2 at the concrete base64 content object. -/
theorem C2_base64_ignores_witness :
    decode_body_text
        (Json.obj [("text", Json.str "/0E="), ("encoding", Json.str "base64")])
      = .ok ((b64decode "/0E=").map (utf8Decode false)) :=
  C2_base64_ignores _ "/0E=" rfl rfl

/-! Claim C1: request-side JSON recovery and hardening stripping. -/

/-- Specification-side core parse with no hardening stripping, following
C1's words that request recovery applies none ("hardening is a
response-body anti-hijacking convention only"). -/
def try_parse_json_nostrip (text : Json) : Except Unit (Option Json × Bool) :=
  if !truthy text then .ok (none, false)
  else
    match text with
    | .str t =>
      let s := pyStrip t
      if s.data.isEmpty then .ok (none, false)
      else
        match jsonLoads s with
        | some v => .ok (some v, true)
        | none => .ok (none, false)
    | _ => .error ()

/-- Specification-side request recovery as C1 reads it: the same layered
fallback, but with no hardening-prefix stripping in any parse attempt. -/
def try_extract_request_json_spec (entry : Json) : Except Unit (Option Json × Bool) :=
  match pyGetD entry "request" (.obj []) with
  | .error e => .error e
  | .ok req =>
  match pyGetJ req "postData" with
  | .error e => .error e
  | .ok pdJ =>
    let post := pyOr pdJ (.obj [])
  match pyGetJ post "mimeType" with
  | .error e => .error e
  | .ok mimeJ =>
  match asStr (pyOr mimeJ (.str "")) with
  | .error e => .error e
  | .ok mime0 =>
    let mime := pyLower mime0
  match pyGetJ post "text" with
  | .error e => .error e
  | .ok text =>
    if !truthy text then .ok (none, false)
    else
      match
        (if strContains mime "json" then
          match try_parse_json_nostrip text with
          | .error e => .error e
          | .ok (obj?, ok) =>
            .ok (if ok then some (obj?, true) else none)
        else .ok none : Except Unit (Option (Option Json × Bool))) with
      | .error e => .error e
      | .ok (some r) => .ok r
      | .ok none =>
        match
          (if strContains mime "x-www-form-urlencoded" then
            match pyGetJ post "params" with
            | .error e => .error e
            | .ok params =>
              match params with
              | .arr ps =>
                match formPairs ps with
                | .error e => .error e
                | .ok pairs => .ok (some (some (Json.obj (dictFold pairs)), true))
              | _ => .ok none
          else .ok none : Except Unit (Option (Option Json × Bool))) with
        | .error e => .error e
        | .ok (some r) => .ok r
        | .ok none =>
          match try_parse_json_nostrip text with
          | .error e => .error e
          | .ok (obj?, ok) =>
            .ok (if ok then (obj?, true) else (none, false))

/-- A json-typed post-data body carrying an anti-hijacking guard. -/
def c1entry : Json :=
  Json.obj [("request", Json.obj [("postData", Json.obj
    [("mimeType", Json.str "application/json"),
     ("text", Json.str ")]\x7d\x27,\n\x7b\"a\":1\x7d")])])]

/-- Counterexample to C1: on a json-typed body guarded by `)]}',` the
source recovers the object — the core parse routine it calls strips the
hardening prefix — while the claim's stripping-free reading fails. -/
theorem C1_counterexample :
    try_extract_request_json c1entry = .ok (some (Json.obj [("a", Json.int 1)]), true) ∧
    try_extract_request_json_spec c1entry = .ok (none, false) ∧
    try_extract_request_json c1entry ≠ try_extract_request_json_spec c1entry := by
  refine ⟨rfl, rfl, ?_⟩
  intro h
  rw [show try_extract_request_json c1entry
      = .ok (some (Json.obj [("a", Json.int 1)]), true) from rfl,
    show try_extract_request_json_spec c1entry = .ok (none, false) from rfl] at h
  simp at h

/-- C1 amended: for every request post-data object whose mime type
contains "json" and whose body text is a (truthy) string, the recovery
parses it via the core parse routine — which does apply hardening-prefix
stripping, to requests as well — and on success returns the parsed value. -/
theorem C1_json_mime_parses (entry req pd : Json) (m t : String) (v : Json)
    (hreq : pyGetD entry "request" (Json.obj []) = .ok req)
    (hpd : pyGetJ req "postData" = .ok pd)
    (hmime : pyGetJ (pyOr pd (Json.obj [])) "mimeType" = .ok (Json.str m))
    (hjson : strContains (pyLower m) "json" = true)
    (htext : pyGetJ (pyOr pd (Json.obj [])) "text" = .ok (Json.str t))
    (ht : t ≠ "")
    (hparse : try_parse_json (Json.str t) = .ok (some v, true)) :
    try_extract_request_json entry = .ok (some v, true) := by
  simp only [try_extract_request_json, hreq, hpd, hmime, htext, pyOr_str, asStr,
    hjson, truthy_str t ht, if_true, Bool.not_true, Bool.false_eq_true, hparse,
    if_false]

/-- Witness for the amended C1: a json-typed post body parses and the
parsed object is returned. -/
theorem C1_json_mime_parses_witness :
    try_extract_request_json
        (Json.obj [("request", Json.obj [("postData", Json.obj
          [("mimeType", Json.str "application/json"),
           ("text", Json.str "\x7b\"a\":1\x7d")])])])
      = .ok (some (Json.obj [("a", Json.int 1)]), true) :=
  C1_json_mime_parses _ _ _ "application/json" "\x7b\"a\":1\x7d"
    (Json.obj [("a", Json.int 1)]) rfl rfl rfl (by decide) rfl (by decide) rfl

/-! Claims C8 and C10: the urlencoded-params branch. -/

/-- Evaluation of `try_extract_request_json` through the urlencoded
branch: body text truthy, mime containing "x-www-form-urlencoded", a
params list present, and the json-typed attempt (if its mime test fires
at all) failing. -/
theorem form_branch_eval (entry req pd text : Json) (m : String)
    (ps : List Json) (pairs : List (String × Json))
    (hreq : pyGetD entry "request" (Json.obj []) = .ok req)
    (hpd : pyGetJ req "postData" = .ok pd)
    (hmime : pyGetJ (pyOr pd (Json.obj [])) "mimeType" = .ok (Json.str m))
    (htext : pyGetJ (pyOr pd (Json.obj [])) "text" = .ok text)
    (htruthy : truthy text = true)
    (hjs : strContains (pyLower m) "json" = true →
      try_parse_json text = .ok (none, false))
    (hform : strContains (pyLower m) "x-www-form-urlencoded" = true)
    (hparams : pyGetJ (pyOr pd (Json.obj [])) "params" = .ok (Json.arr ps))
    (hpairs : formPairs ps = .ok pairs) :
    try_extract_request_json entry = .ok (some (Json.obj (dictFold pairs)), true) := by
  simp only [try_extract_request_json, hreq, hpd, hmime, htext, pyOr_str, asStr,
    htruthy, Bool.not_true, Bool.false_eq_true, if_false]
  by_cases hj : strContains (pyLower m) "json" = true
  · simp only [hj, if_true, hjs hj, hform, hparams, hpairs]
    simp
  · simp only [Bool.not_eq_true] at hj
    simp only [hj, Bool.false_eq_true, if_false, hform, if_true, hparams, hpairs]

/-- A urlencoded post-data object with a params list but an empty body
text. -/
def c8entryEmptyText : Json :=
  Json.obj [("request", Json.obj [("postData", Json.obj
    [("mimeType", Json.str "application/x-www-form-urlencoded"),
     ("text", Json.str ""),
     ("params", Json.arr [Json.obj [("name", Json.str "a"),
       ("value", Json.str "1")]])])])]

/-- A post-data object whose mime type contains both "json" and
"x-www-form-urlencoded" and whose body text parses as JSON. -/
def c8entryJsonMime : Json :=
  Json.obj [("request", Json.obj [("postData", Json.obj
    [("mimeType", Json.str "application/json+x-www-form-urlencoded"),
     ("text", Json.str "\x7b\"z\":9\x7d"),
     ("params", Json.arr [Json.obj [("name", Json.str "a"),
       ("value", Json.str "1")]])])])]

/-- Counterexample to C8 as stated: (a) with the params list present but
the body text empty, recovery fails — `if not text` fires first; (b) with
a mime containing both "json" and "x-www-form-urlencoded" and a parsable
body, the json branch returns the parsed body, not the params mapping. -/
theorem C8_counterexample :
    strContains (pyLower "application/x-www-form-urlencoded")
      "x-www-form-urlencoded" = true ∧
    try_extract_request_json c8entryEmptyText = .ok (none, false) ∧
    strContains (pyLower "application/json+x-www-form-urlencoded")
      "x-www-form-urlencoded" = true ∧
    try_extract_request_json c8entryJsonMime
      = .ok (some (Json.obj [("z", Json.int 9)]), true) ∧
    (some (Json.obj [("z", Json.int 9)]) : Option Json)
      ≠ some (Json.obj [("a", Json.str "1")]) := by
  refine ⟨by decide, rfl, by decide, rfl, ?_⟩
  intro h
  simp at h

/-- C8 amended: for every request post-data object whose mime type
contains "x-www-form-urlencoded", whose body text is present and truthy,
whose structured parameter list is present, and for which the json-typed
attempt does not return a value (the mime lacks "json", or the core parse
of the body fails), recovery succeeds and returns the name-to-value
mapping, skipping parameters with an empty or absent name; an empty list
yields an empty mapping. -/
theorem C8_form_mapping (entry req pd text : Json) (m : String)
    (ps : List Json) (pairs : List (String × Json))
    (hreq : pyGetD entry "request" (Json.obj []) = .ok req)
    (hpd : pyGetJ req "postData" = .ok pd)
    (hmime : pyGetJ (pyOr pd (Json.obj [])) "mimeType" = .ok (Json.str m))
    (htext : pyGetJ (pyOr pd (Json.obj [])) "text" = .ok text)
    (htruthy : truthy text = true)
    (hjs : strContains (pyLower m) "json" = true →
      try_parse_json text = .ok (none, false))
    (hform : strContains (pyLower m) "x-www-form-urlencoded" = true)
    (hparams : pyGetJ (pyOr pd (Json.obj [])) "params" = .ok (Json.arr ps))
    (hpairs : formPairs ps = .ok pairs) :
    try_extract_request_json entry = .ok (some (Json.obj (dictFold pairs)), true) :=
  form_branch_eval entry req pd text m ps pairs hreq hpd hmime htext htruthy
    hjs hform hparams hpairs

/-- Witness for the amended C8, the spec's own example: params
`[{name:"a",value:"1"},{name:"b",value:"2"}]` yield `{"a":"1","b":"2"}`. -/
theorem C8_form_mapping_witness :
    try_extract_request_json
        (Json.obj [("request", Json.obj [("postData", Json.obj
          [("mimeType", Json.str "application/x-www-form-urlencoded"),
           ("text", Json.str "a=1&b=2"),
           ("params", Json.arr
             [Json.obj [("name", Json.str "a"), ("value", Json.str "1")],
              Json.obj [("name", Json.str "b"), ("value", Json.str "2")]])])])])
      = .ok (some (Json.obj [("a", Json.str "1"), ("b", Json.str "2")]), true) :=
  C8_form_mapping _ _ _ (Json.str "a=1&b=2") "application/x-www-form-urlencoded"
    [Json.obj [("name", Json.str "a"), ("value", Json.str "1")],
     Json.obj [("name", Json.str "b"), ("value", Json.str "2")]]
    [("a", Json.str "1"), ("b", Json.str "2")]
    rfl rfl rfl rfl (by decide) (fun hj => by exact absurd hj (by decide))
    (by decide) rfl rfl

/-- Looking a key up after a dict insertion. -/
theorem pyLookup_dictInsert (d : List (String × Json)) (k n : String) (v : Json) :
    pyLookup (dictInsert d k v) n = if k = n then some v else pyLookup d n := by
  induction d with
  | nil => rfl
  | cons kv kvs ih =>
    by_cases h : kv.1 = k
    · simp only [dictInsert, h, if_true, pyLookup]
      by_cases hn : k = n
      · simp [hn]
      · simp only [hn, if_false, ← h, hn, pyLookup]
        simp [h, hn]
    · simp only [dictInsert, h, if_false, pyLookup, ih]
      by_cases hn : kv.1 = n
      · have : ¬ k = n := fun hkn => h (hn.trans hkn.symm)
        simp [hn, this]
      · simp [hn]

/-- Keys after a dict insertion. -/
theorem keys_dictInsert (d : List (String × Json)) (k : String) (v : Json) :
    (dictInsert d k v).map Prod.fst =
      if k ∈ d.map Prod.fst then d.map Prod.fst else d.map Prod.fst ++ [k] := by
  induction d with
  | nil => rfl
  | cons kv kvs ih =>
    by_cases h : kv.1 = k
    · simp [dictInsert, h]
    · have : ¬ k = kv.1 := fun hk => h hk.symm
      simp only [dictInsert, h, if_false, List.map_cons, ih, List.mem_cons, this,
        false_or]
      by_cases hm : k ∈ kvs.map Prod.fst <;> simp [hm]

/-- Dict insertion preserves key uniqueness. -/
theorem nodup_keys_dictInsert (d : List (String × Json)) (k : String) (v : Json)
    (h : (d.map Prod.fst).Nodup) : ((dictInsert d k v).map Prod.fst).Nodup := by
  rw [keys_dictInsert]
  by_cases hm : k ∈ d.map Prod.fst
  · simpa [hm]
  · simpa [hm] using List.Nodup.append h (List.nodup_singleton k)
      (by
        intro a ha hb
        simp only [List.mem_singleton] at hb
        exact hm (hb ▸ ha))

/-- Looking a key up in a folded dict finds the value of the key's last
occurrence in the inserted pairs (and otherwise looks in the seed dict). -/
theorem pyLookup_foldl_dictInsert (n : String) :
    ∀ (kvs d : List (String × Json)),
      pyLookup (kvs.foldl (fun d kv => dictInsert d kv.1 kv.2) d) n =
        (kvs.reverse.find? fun kv => kv.1 == n).elim (pyLookup d n)
          (fun kv => some kv.2) := by
  intro kvs
  induction kvs with
  | nil => intro d; rfl
  | cons kv kvs ih =>
    intro d
    simp only [List.foldl_cons, ih, List.reverse_cons, List.find?_append]
    cases hf : kvs.reverse.find? fun kv => kv.1 == n with
    | some x => simp [hf]
    | none =>
      simp only [hf, Option.none_orElse, List.find?_cons, List.find?_nil]
      by_cases h : kv.1 = n
      · simp [h, pyLookup_dictInsert]
      · have : (kv.1 == n) = false := by simpa using h
        simp [this, pyLookup_dictInsert, h, Option.elim]

/-- Keys of a folded dict are unique. -/
theorem nodup_keys_foldl_dictInsert :
    ∀ (kvs d : List (String × Json)), (d.map Prod.fst).Nodup →
      ((kvs.foldl (fun d kv => dictInsert d kv.1 kv.2) d).map Prod.fst).Nodup := by
  intro kvs
  induction kvs with
  | nil => intro d h; exact h
  | cons kv kvs ih =>
    intro d h
    exact ih _ (nodup_keys_dictInsert d kv.1 kv.2 h)

/-- Membership in the keys of a folded dict. -/
theorem mem_keys_foldl_dictInsert (n : String) :
    ∀ (kvs d : List (String × Json)),
      n ∈ ((kvs.foldl (fun d kv => dictInsert d kv.1 kv.2) d).map Prod.fst) ↔
        n ∈ d.map Prod.fst ∨ n ∈ kvs.map Prod.fst := by
  intro kvs
  induction kvs with
  | nil => intro d; simp
  | cons kv kvs ih =>
    intro d
    simp only [List.foldl_cons, ih, keys_dictInsert, List.map_cons, List.mem_cons]
    by_cases hm : kv.1 ∈ d.map Prod.fst
    · simp only [hm, if_true]
      constructor
      · tauto
      · rintro (h | h | h)
        · tauto
        · exact Or.inl (h ▸ hm)
        · tauto
    · simp only [hm, if_false, List.mem_append, List.mem_singleton]
      tauto

/-- C10: when a form-urlencoded parameter list contains several
parameters with the same non-empty name, the mapping the recovery returns
binds that name exactly once, to the value of the last such parameter in
list order. -/
theorem C10_dup_name_last_wins (entry req pd text : Json) (m : String)
    (ps : List Json) (pairs : List (String × Json)) (n : String) (v : Json)
    (hreq : pyGetD entry "request" (Json.obj []) = .ok req)
    (hpd : pyGetJ req "postData" = .ok pd)
    (hmime : pyGetJ (pyOr pd (Json.obj [])) "mimeType" = .ok (Json.str m))
    (htext : pyGetJ (pyOr pd (Json.obj [])) "text" = .ok text)
    (htruthy : truthy text = true)
    (hjs : strContains (pyLower m) "json" = true →
      try_parse_json text = .ok (none, false))
    (hform : strContains (pyLower m) "x-www-form-urlencoded" = true)
    (hparams : pyGetJ (pyOr pd (Json.obj [])) "params" = .ok (Json.arr ps))
    (hpairs : formPairs ps = .ok pairs)
    (hn : (pairs.reverse.find? fun kv => kv.1 == n) = some (n, v)) :
    try_extract_request_json entry = .ok (some (Json.obj (dictFold pairs)), true) ∧
    ((dictFold pairs).map Prod.fst).count n = 1 ∧
    pyLookup (dictFold pairs) n = some v := by
  refine ⟨form_branch_eval entry req pd text m ps pairs hreq hpd hmime htext
    htruthy hjs hform hparams hpairs, ?_, ?_⟩
  · have hmem : n ∈ pairs.map Prod.fst := by
      have := List.find?_some hn
      have hmem' : (n, v) ∈ pairs.reverse := List.mem_of_find?_eq_some hn
      rw [List.mem_reverse] at hmem'
      exact List.mem_map_of_mem Prod.fst hmem'
    have hnd : ((dictFold pairs).map Prod.fst).Nodup :=
      nodup_keys_foldl_dictInsert pairs [] (by simp)
    have hm2 : n ∈ (dictFold pairs).map Prod.fst := by
      rw [dictFold, mem_keys_foldl_dictInsert]
      exact Or.inr hmem
    exact List.count_eq_one_of_mem hnd hm2
  · rw [dictFold, pyLookup_foldl_dictInsert n pairs [], hn]
    rfl

/-- Witness for C10: the duplicate name `a` appears once in the mapping,
bound to its last value `"3"`. -/
theorem C10_dup_name_last_wins_witness :
    try_extract_request_json
        (Json.obj [("request", Json.obj [("postData", Json.obj
          [("mimeType", Json.str "application/x-www-form-urlencoded"),
           ("text", Json.str "x"),
           ("params", Json.arr
             [Json.obj [("name", Json.str "a"), ("value", Json.str "1")],
              Json.obj [("name", Json.str "b"), ("value", Json.str "2")],
              Json.obj [("name", Json.str "a"), ("value", Json.str "3")]])])])])
      = .ok (some (Json.obj (dictFold
          [("a", Json.str "1"), ("b", Json.str "2"), ("a", Json.str "3")])), true) ∧
    ((dictFold [("a", Json.str "1"), ("b", Json.str "2"),
        ("a", Json.str "3")]).map Prod.fst).count "a" = 1 ∧
    pyLookup (dictFold [("a", Json.str "1"), ("b", Json.str "2"),
        ("a", Json.str "3")]) "a" = some (Json.str "3") :=
  C10_dup_name_last_wins _ _ _ (Json.str "x")
    "application/x-www-form-urlencoded"
    [Json.obj [("name", Json.str "a"), ("value", Json.str "1")],
     Json.obj [("name", Json.str "b"), ("value", Json.str "2")],
     Json.obj [("name", Json.str "a"), ("value", Json.str "3")]]
    [("a", Json.str "1"), ("b", Json.str "2"), ("a", Json.str "3")]
    "a" (Json.str "3")
    rfl rfl rfl rfl (by decide) (fun hj => by exact absurd hj (by decide))
    (by decide) rfl rfl rfl

/-! Claim C5: the static-asset extension blocklist wins over everything. -/

/-- C5: whenever the classifier reaches a verdict and the URL path's
extension is in the static-asset blocklist, the verdict is false,
regardless of method, mime type, or response body. -/
theorem C5_ext_blocklist (entry req urlJ : Json) (u : String) (b : Bool)
    (hreq : pyGetD entry "request" (Json.obj []) = .ok req)
    (hurl : pyGetJ req "url" = .ok urlJ)
    (hu : pyOr urlJ (Json.str "") = Json.str u)
    (hext : pyLower (splitextExt (urlparsePath u)) ∈ ext_block)
    (hb : is_probable_api entry = .ok b) :
    b = false := by
  simp only [is_probable_api, hreq, hurl, hu, asStr] at hb
  split at hb
  · exact Except.noConfusion hb
  split at hb
  · exact Except.noConfusion hb
  split at hb
  · exact Except.noConfusion hb
  split at hb
  · exact Except.noConfusion hb
  split at hb
  · exact Except.noConfusion hb
  split at hb
  · exact Except.noConfusion hb
  split at hb
  · exact Except.noConfusion hb
  rw [if_pos hext] at hb
  exact (Except.ok.inj hb).symm

/-- A blocklisted-extension entry that hits every positive signal: POST
method, json mime type, and a JSON body. -/
def c5entry : Json :=
  Json.obj [("request", Json.obj [("url", Json.str "http://x.com/a.js"),
      ("method", Json.str "POST")]),
    ("response", Json.obj [("status", Json.int 200),
      ("content", Json.obj [("mimeType", Json.str "application/json"),
        ("text", Json.str "\x7b\x7d")])])]

/-- Witness for C5 at a `.js` URL served with POST and a json mime type. -/
theorem C5_ext_blocklist_witness :
    pyLower (splitextExt (urlparsePath "http://x.com/a.js")) ∈ ext_block ∧
    false = false :=
  ⟨by decide,
   C5_ext_blocklist c5entry
     (Json.obj [("url", Json.str "http://x.com/a.js"), ("method", Json.str "POST")])
     (Json.str "http://x.com/a.js") "http://x.com/a.js" false
     rfl rfl rfl (by decide) rfl⟩

/-! Claims C3 and C4: the entry loop's inclusion decision and indices. -/

/-- The response-JSON flag the entry loop computes (decode the response
body, default it to the empty string, run the core parse). -/
def responseIsJson (entry : Json) : Except Unit Bool :=
  match get_entry_fields entry with
  | .error e => .error e
  | .ok (_, _, _, _, content) =>
    match decode_body_text content with
    | .error e => .error e
    | .ok decoded =>
      match try_parse_json (Json.str (decoded.getD "")) with
      | .error e => .error e
      | .ok (_, ok) => .ok ok

/-- The include decision written as the claim's boolean formula. -/
theorem includeDecision_eq (a j o : Bool) :
    includeDecision a j o = ((a && (j || o)) || j) := by
  cases a <;> cases j <;> cases o <;> rfl

/-- An emitted row records the loop index it was built at. -/
theorem processEntry_index (idx : Nat) (entry : Json) (inj : Bool)
    (r : SummaryRow) (h : processEntry idx entry inj = .ok (some r)) :
    r.index = idx := by
  unfold processEntry at h
  split at h
  · exact Except.noConfusion h
  split at h
  · exact Except.noConfusion h
  split at h
  · exact Except.noConfusion h
  split at h
  · exact Except.noConfusion h
  split at h
  · exact Option.noConfusion (Except.ok.inj h)
  · split at h
    · exact Except.noConfusion h
    split at h
    · exact Except.noConfusion h
    split at h
    · exact Except.noConfusion h
    exact congrArg SummaryRow.index (Option.some.inj (Except.ok.inj h)).symm

/-- Every collected row comes from processing the entry at its 0-based
position `j`, and records index `k + j`. -/
theorem processLoop_mem (inj : Bool) :
    ∀ (es : List Json) (k : Nat) (r : SummaryRow), r ∈ processLoop inj k es →
      ∃ j, ∃ (hj : j < es.length), r.index = k + j ∧
        processEntry (k + j) (es.get ⟨j, hj⟩) inj = .ok (some r) := by
  intro es
  induction es with
  | nil => intro k r h; simp [processLoop] at h
  | cons e es ih =>
    intro k r h
    simp only [processLoop] at h
    cases hpe : processEntry k e inj with
    | error err =>
      rw [hpe] at h
      obtain ⟨j, hj, hidx, hrest⟩ := ih (k + 1) r h
      exact ⟨j + 1, Nat.succ_lt_succ hj, by omega,
        by rw [show k + (j + 1) = k + 1 + j by omega]; exact hrest⟩
    | ok o =>
      cases o with
      | none =>
        rw [hpe] at h
        obtain ⟨j, hj, hidx, hrest⟩ := ih (k + 1) r h
        exact ⟨j + 1, Nat.succ_lt_succ hj, by omega,
          by rw [show k + (j + 1) = k + 1 + j by omega]; exact hrest⟩
      | some row =>
        rw [hpe] at h
        rcases List.mem_cons.mp h with hr | hr
        · subst hr
          exact ⟨0, Nat.succ_pos _, by
            simpa using processEntry_index k e inj r hpe, by simpa using hpe⟩
        · obtain ⟨j, hj, hidx, hrest⟩ := ih (k + 1) r hr
          exact ⟨j + 1, Nat.succ_lt_succ hj, by omega,
            by rw [show k + (j + 1) = k + 1 + j by omega]; exact hrest⟩

/-- Conversely, an entry whose processing yields a row puts that row into
the collected list. -/
theorem processLoop_of_entry (inj : Bool) :
    ∀ (es : List Json) (k j : Nat) (hj : j < es.length) (r : SummaryRow),
      processEntry (k + j) (es.get ⟨j, hj⟩) inj = .ok (some r) →
      r ∈ processLoop inj k es := by
  intro es
  induction es with
  | nil => intro k j hj r hr; exact absurd hj (by simp)
  | cons e es ih =>
    intro k j hj r hr
    cases j with
    | zero =>
      have hr0 : processEntry k e inj = .ok (some r) := by simpa using hr
      simp only [processLoop, hr0]
      exact List.mem_cons_self r _
    | succ j =>
      have hj' : j < es.length := by simp at hj; omega
      have hr1 : processEntry (k + 1 + j) (es.get ⟨j, hj'⟩) inj
          = .ok (some r) := by
        rw [show k + 1 + j = k + (j + 1) by omega]; exact hr
      have hmem := ih (k + 1) j hj' r hr1
      cases hpe : processEntry k e inj with
      | error err => simpa [processLoop, hpe] using hmem
      | ok o =>
        cases o with
        | none => simpa [processLoop, hpe] using hmem
        | some row =>
          simp only [processLoop, hpe]
          exact List.mem_cons_of_mem row hmem

/-- The emitted indices form a sublist of `k, k+1, …`. -/
theorem processLoop_indices_sublist (inj : Bool) :
    ∀ (es : List Json) (k : Nat),
      ((processLoop inj k es).map fun r => r.index).Sublist
        (List.range' k es.length) := by
  intro es
  induction es with
  | nil => intro k; simp [processLoop]
  | cons e es ih =>
    intro k
    rw [show (e :: es).length = es.length + 1 from rfl, List.range'_succ]
    cases hpe : processEntry k e inj with
    | error err =>
      simp only [processLoop, hpe]
      exact List.Sublist.cons k (ih (k + 1))
    | ok o =>
      cases o with
      | none =>
        simp only [processLoop, hpe]
        exact List.Sublist.cons k (ih (k + 1))
      | some row =>
        simp only [processLoop, hpe, List.map_cons,
          processEntry_index k e inj row hpe]
        exact List.Sublist.cons₂ k (ih (k + 1))

/-- C4: the summary rows carry the original 1-based entry positions — the
index list is a sublist of `1..N` (hence strictly increasing), and each
row is exactly what processing the entry at its recorded position
produced, so excluding entries never renumbers the included ones. -/
theorem C4_row_indices (entries : List Json) (inj : Bool) :
    ((processLoop inj 1 entries).map fun r => r.index).Sublist
      (List.range' 1 entries.length) ∧
    ((processLoop inj 1 entries).map fun r => r.index).Pairwise (· < ·) ∧
    ∀ r ∈ processLoop inj 1 entries, ∃ j, ∃ (hj : j < entries.length),
      r.index = 1 + j ∧
      processEntry (1 + j) (entries.get ⟨j, hj⟩) inj = .ok (some r) := by
  refine ⟨processLoop_indices_sublist inj entries 1, ?_, ?_⟩
  · exact List.Pairwise.sublist (processLoop_indices_sublist inj entries 1)
      (List.pairwise_lt_range' 1 entries.length)
  · intro r hr
    exact processLoop_mem inj entries 1 r hr

/-- Witness for C4 at a concrete two-entry capture. -/
theorem C4_row_indices_witness :
    ((processLoop false 1 [Json.obj [], Json.obj []]).map fun r => r.index).Sublist
      (List.range' 1 ([Json.obj [], Json.obj []] : List Json).length) ∧
    ((processLoop false 1 [Json.obj [], Json.obj []]).map fun r => r.index).Pairwise
      (· < ·) ∧
    ∀ r ∈ processLoop false 1 [Json.obj [], Json.obj []],
      ∃ j, ∃ (hj : j < ([Json.obj [], Json.obj []] : List Json).length),
        r.index = 1 + j ∧
        processEntry (1 + j) (([Json.obj [], Json.obj []] : List Json).get ⟨j, hj⟩)
          false = .ok (some r) :=
  C4_row_indices [Json.obj [], Json.obj []] false

/-- The two halves of the inclusion decision, given that processing the
entry did not raise. -/
theorem processEntry_eval (idx : Nat) (e : Json) (inj : Bool) (pa rj : Bool)
    (hpa : is_probable_api e = .ok pa) (hrj : responseIsJson e = .ok rj)
    (hok : (processEntry idx e inj).isOk = true) :
    (includeDecision pa rj inj = true → ∃ r, processEntry idx e inj = .ok (some r)) ∧
    (includeDecision pa rj inj = false → processEntry idx e inj = .ok none) := by
  cases hflds : get_entry_fields e with
  | error err =>
    simp only [responseIsJson, hflds] at hrj
    exact Except.noConfusion hrj
  | ok flds =>
    obtain ⟨m, u, s, st, c⟩ := flds
    simp only [responseIsJson, hflds] at hrj
    cases hdec : decode_body_text c with
    | error err =>
      simp only [hdec] at hrj
      exact Except.noConfusion hrj
    | ok d =>
      simp only [hdec] at hrj
      cases htp : try_parse_json (Json.str (d.getD "")) with
      | error err =>
        simp only [htp] at hrj
        exact Except.noConfusion hrj
      | ok p =>
        obtain ⟨o, rj'⟩ := p
        simp only [htp] at hrj
        have hrj2 : rj' = rj := by simpa using hrj
        subst hrj2
        simp only [processEntry, hflds, hpa, hdec, htp] at hok ⊢
        by_cases hinc : includeDecision pa rj' inj = true
        · simp only [hinc, Bool.not_true, Bool.false_eq_true, if_false] at hok ⊢
          refine ⟨fun _ => ?_, fun hfalse => Bool.noConfusion hfalse⟩
          cases hu : asStr u with
          | error err2 =>
            rw [hu] at hok
            exact Bool.noConfusion hok
          | ok urlS =>
            simp only [hu] at hok ⊢
            cases hreqj : try_extract_request_json e with
            | error err2 =>
              rw [hreqj] at hok
              exact Bool.noConfusion hok
            | ok q =>
              obtain ⟨ro, rij⟩ := q
              simp only [hreqj] at hok ⊢
              cases hcm : pyGetJ c "mimeType" with
              | error err2 =>
                rw [hcm] at hok
                exact Bool.noConfusion hok
              | ok cm =>
                simp only [hcm]
                exact ⟨_, rfl⟩
        · simp only [Bool.not_eq_true] at hinc
          simp only [hinc, Bool.not_false, if_true] at hok ⊢
          exact ⟨fun htrue => Bool.noConfusion htrue, fun _ => by simp⟩

/-- C3: given that the entry's processing does not raise, a summary row is
emitted for it exactly when (classifier verdict AND (response parses as
JSON OR the include-nonjson option)) OR the response parses as JSON; in
particular a JSON-parsing response is included even on a false verdict. -/
theorem C3_inclusion (entries : List Json) (inj : Bool) (i : Nat)
    (hi : i < entries.length) (pa rj : Bool)
    (hpa : is_probable_api (entries.get ⟨i, hi⟩) = .ok pa)
    (hrj : responseIsJson (entries.get ⟨i, hi⟩) = .ok rj)
    (hok : (processEntry (i + 1) (entries.get ⟨i, hi⟩) inj).isOk = true) :
    (∃ r ∈ processLoop inj 1 entries, r.index = i + 1) ↔
      ((pa && (rj || inj)) || rj) = true := by
  rw [← includeDecision_eq]
  constructor
  · rintro ⟨r, hr, hidx⟩
    obtain ⟨j, hj, hidx', hpe⟩ := processLoop_mem inj entries 1 r hr
    have hij : j = i := by omega
    subst hij
    by_contra hninc
    have hinc0 : includeDecision pa rj inj = false := by
      cases hcase : includeDecision pa rj inj with
      | false => rfl
      | true => exact absurd hcase hninc
    have h2 := (processEntry_eval (j + 1) (entries.get ⟨j, hi⟩) inj pa rj hpa hrj hok).2 hinc0
    rw [show j + 1 = 1 + j by omega] at h2
    have hcontra : Except.ok (some r) = (Except.ok none : Except Unit (Option SummaryRow)) :=
      hpe.symm.trans h2
    exact Option.noConfusion (Except.ok.inj hcontra)
  · intro hinc
    obtain ⟨r, hpe⟩ :=
      (processEntry_eval (i + 1) (entries.get ⟨i, hi⟩) inj pa rj hpa hrj hok).1 hinc
    refine ⟨r, ?_, processEntry_index _ _ _ _ hpe⟩
    refine processLoop_of_entry inj entries 1 i hi r ?_
    rw [show 1 + i = i + 1 by omega]
    exact hpe

/-- An entry whose response body is the JSON literal `null`: the
classifier's verdict is false (no positive signal; the body starts with
neither brace nor bracket), yet the response parses as JSON. -/
def c3entry : Json :=
  Json.obj [("request", Json.obj [("url", Json.str "http://x.com/page"),
      ("method", Json.str "GET")]),
    ("response", Json.obj [("status", Json.int 200),
      ("content", Json.obj [("mimeType", Json.str "text/html"),
        ("text", Json.str "null")])])]

/-- Witness for C3: the JSON-parsing response is included even though the
classifier said no. -/
theorem C3_inclusion_witness :
    ∃ r ∈ processLoop false 1 [c3entry], r.index = 0 + 1 :=
  (C3_inclusion [c3entry] false 0 (by decide) false true rfl rfl rfl).mpr rfl

/-! Claims C6 and C7: the URL aggregation refines its specification. -/

/-- Membership in a set insertion. -/
theorem mem_addSet (acc : List String) (x y : String) :
    y ∈ addSet acc x ↔ y ∈ acc ∨ y = x := by
  unfold addSet
  by_cases h : x ∈ acc
  · simp only [h, if_true]
    constructor
    · exact Or.inl
    · rintro (hy | rfl)
      · exact hy
      · exact h
  · simp [h, List.mem_append]

/-- Membership in a fold of set insertions. -/
theorem mem_foldl_addSet (y : String) :
    ∀ (l acc : List String), y ∈ l.foldl addSet acc ↔ y ∈ acc ∨ y ∈ l := by
  intro l
  induction l with
  | nil => intro acc; simp
  | cons x l ih =>
    intro acc
    rw [List.foldl_cons, ih, mem_addSet]
    simp only [List.mem_cons]
    tauto

/-- First-seen deduplication preserves membership. -/
theorem mem_firstSeen (y : String) (l : List String) :
    y ∈ firstSeen l ↔ y ∈ l := by
  rw [firstSeen, mem_foldl_addSet]; simp

/-- Set insertion preserves duplicate-freeness. -/
theorem nodup_addSet (acc : List String) (x : String) (h : acc.Nodup) :
    (addSet acc x).Nodup := by
  unfold addSet
  by_cases hm : x ∈ acc
  · simpa [hm]
  · simp only [hm, if_false]
    exact List.Nodup.append h (List.nodup_singleton x)
      (by
        intro a ha hb
        simp only [List.mem_singleton] at hb
        exact hm (hb ▸ ha))

/-- First-seen deduplication yields a duplicate-free list. -/
theorem nodup_firstSeen (l : List String) : (firstSeen l).Nodup := by
  rw [firstSeen]
  have : ∀ (l acc : List String), acc.Nodup → (l.foldl addSet acc).Nodup := by
    intro l
    induction l with
    | nil => intro acc h; exact h
    | cons x l ih => intro acc h; exact ih _ (nodup_addSet acc x h)
  exact this l [] List.nodup_nil

/-- First-seen deduplication after appending one element. -/
theorem firstSeen_concat (l : List String) (x : String) :
    firstSeen (l ++ [x]) = addSet (firstSeen l) x := by
  rw [firstSeen, firstSeen, List.foldl_append]
  rfl

/-- The unique-urls list after one more row. -/
theorem specAggUrls_concat (rows : List InRow) (r : InRow) :
    specAggUrls (rows ++ [r]) =
      if pyStrip r.url = "" then specAggUrls rows
      else addSet (specAggUrls rows) (pyStrip r.url) := by
  unfold specAggUrls
  rw [List.map_append, List.filter_append]
  by_cases h : pyStrip r.url = ""
  · simp [h]
  · simp [h, firstSeen_concat]

/-- Urls collected by the aggregation are non-empty. -/
theorem specAggUrls_ne_empty (rows : List InRow) (u : String)
    (h : u ∈ specAggUrls rows) : u ≠ "" := by
  rw [specAggUrls, mem_firstSeen, List.mem_filter] at h
  simpa using h.2

/-- Membership in the unique-urls list. -/
theorem mem_specAggUrls (rows : List InRow) (u : String) :
    u ∈ specAggUrls rows ↔ u ≠ "" ∧ ∃ r ∈ rows, pyStrip r.url = u := by
  rw [specAggUrls, mem_firstSeen, List.mem_filter, List.mem_map]
  constructor
  · rintro ⟨⟨r, hr, hru⟩, hne⟩
    exact ⟨by simpa using hne, r, hr, hru⟩
  · rintro ⟨hne, r, hr, hru⟩
    exact ⟨⟨r, hr, hru⟩, by simpa using hne⟩

/-- A collected column set after one more row. -/
theorem collectVals_concat (g : InRow → String) (rows : List InRow)
    (r : InRow) (u : String) :
    collectVals g (rows ++ [r]) u =
      if pyStrip r.url = u then
        (if pyStrip (g r) = "" then collectVals g rows u
         else addSet (collectVals g rows u) (pyStrip (g r)))
      else collectVals g rows u := by
  unfold collectVals
  rw [List.filter_append]
  by_cases hu : pyStrip r.url = u
  · simp only [hu, if_true]
    have hfilter : List.filter (fun r => decide (pyStrip r.url = u)) [r] = [r] := by
      simp [hu]
    rw [hfilter, List.map_append, List.filter_append]
    by_cases hs : pyStrip (g r) = ""
    · simp [hs]
    · simp [hs, firstSeen_concat]
  · simp [hu]

/-- A url seen in no row collects nothing. -/
theorem collectVals_eq_nil (g : InRow → String) (rows : List InRow) (u : String)
    (hne : u ≠ "") (h : u ∉ specAggUrls rows) :
    collectVals g rows u = [] := by
  have hfil : rows.filter (fun r => decide (pyStrip r.url = u)) = [] := by
    rw [List.filter_eq_nil_iff]
    intro a ha hpa
    exact h ((mem_specAggUrls rows u).mpr ⟨hne, a, ha, by simpa using hpa⟩)
  unfold collectVals
  rw [hfil]
  rfl

/-- One aggregation step starting from the specified shape lands in the
specified shape. -/
theorem aggStep_spec (rows : List InRow) (r : InRow) :
    aggStep ((specAggUrls rows).map fun u =>
        AggRow.mk u (specAggStatuses rows u) (specAggFiles rows u)) r =
      (specAggUrls (rows ++ [r])).map fun u =>
        AggRow.mk u (specAggStatuses (rows ++ [r]) u)
          (specAggFiles (rows ++ [r]) u) := by
  simp only [specAggStatuses, specAggFiles]
  unfold aggStep
  by_cases h0 : pyStrip r.url = ""
  · simp only [h0, if_true, specAggUrls_concat]
    apply Eq.symm
    apply List.map_congr_left
    intro u hu
    have hne : u ≠ "" := specAggUrls_ne_empty rows u hu
    have hneu : ¬ (pyStrip r.url = u) := fun hh => hne (hh ▸ h0)
    rw [collectVals_concat, collectVals_concat, if_neg hneu, if_neg hneu]
  · simp only [h0, if_false, specAggUrls_concat]
    by_cases hmem : pyStrip r.url ∈ specAggUrls rows
    · have haddset : addSet (specAggUrls rows) (pyStrip r.url) = specAggUrls rows := by
        simp [addSet, hmem]
      rw [haddset]
      have hany : ((specAggUrls rows).map fun u =>
          AggRow.mk u (collectVals (fun r => r.status) rows u)
            (collectVals (fun r => r.response_json_file) rows u)).any
          (fun a => a.url = pyStrip r.url) = true := by
        rw [List.any_eq_true]
        exact ⟨AggRow.mk (pyStrip r.url)
            (collectVals (fun r => r.status) rows (pyStrip r.url))
            (collectVals (fun r => r.response_json_file) rows (pyStrip r.url)),
          List.mem_map_of_mem _ hmem, by simp⟩
      rw [if_pos hany, List.map_map]
      apply List.map_congr_left
      intro u hu
      by_cases huu : u = pyStrip r.url
      · subst huu
        simp [Function.comp, collectVals_concat]
      · have huu' : ¬ (pyStrip r.url = u) := fun hh => huu hh.symm
        simp [Function.comp, collectVals_concat, huu, huu']
    · have haddset : addSet (specAggUrls rows) (pyStrip r.url)
          = specAggUrls rows ++ [pyStrip r.url] := by
        simp [addSet, hmem]
      rw [haddset]
      have hany : ((specAggUrls rows).map fun u =>
          AggRow.mk u (collectVals (fun r => r.status) rows u)
            (collectVals (fun r => r.response_json_file) rows u)).any
          (fun a => a.url = pyStrip r.url) = false := by
        rw [Bool.eq_false_iff]
        intro hcontra
        rw [List.any_eq_true] at hcontra
        obtain ⟨x, hx, hxe⟩ := hcontra
        rw [List.mem_map] at hx
        obtain ⟨u, hu, rfl⟩ := hx
        have hux : u = pyStrip r.url := by simpa using hxe
        exact hmem (hux ▸ hu)
      rw [if_neg (by simp [hany]), List.map_append, List.map_map, List.map_append]
      have hnil1 : collectVals (fun r => r.status) rows (pyStrip r.url) = [] :=
        collectVals_eq_nil _ rows _ h0 hmem
      have hnil2 : collectVals (fun r => r.response_json_file) rows (pyStrip r.url) = [] :=
        collectVals_eq_nil _ rows _ h0 hmem
      congr 1
      · apply List.map_congr_left
        intro u hu
        have huu : ¬ (pyStrip r.url = u) := fun hh => hmem (hh ▸ hu)
        have huu2 : u ≠ pyStrip r.url := fun hh => huu hh.symm
        simp [Function.comp, collectVals_concat, huu, huu2]
      · simp [collectVals_concat, hnil1, hnil2]

/-- The aggregation loop computes exactly the specified per-url records in
first-seen url order. -/
theorem aggScan_eq (rows : List InRow) :
    aggScan rows = (specAggUrls rows).map fun u =>
      AggRow.mk u (specAggStatuses rows u) (specAggFiles rows u) := by
  induction rows using List.reverseRecOn with
  | nil => rfl
  | append_singleton rows r ih =>
    rw [aggScan, List.foldl_append]
    rw [show List.foldl aggStep [] rows = aggScan rows from rfl, ih]
    simp only [List.foldl_cons, List.foldl_nil]
    exact aggStep_spec rows r

/-- C6: the aggregator emits one record per unique non-empty url in
first-seen order, with statuses sorted by (length, then lexicographic),
files sorted lexicographically, and each group joined with the separator —
verified against the specification-side rendering, together with the
spec's worked example. -/
theorem C6_aggregate :
    (∀ (rows : List InRow) (sep : String),
      urlAggregate rows sep = urlAggregateSpec rows sep) ∧
    urlAggregate
        [⟨"A", "200", "f1"⟩, ⟨"A", "200", "f2"⟩, ⟨"A", "404", ""⟩] "|"
      = [⟨"A", "200|404", "f1|f2"⟩] := by
  constructor
  · intro rows sep
    unfold urlAggregate urlAggregateSpec
    rw [aggScan_eq, List.map_map]
    rfl
  · rfl

/-- The status set the aggregation state holds for a url. -/
def aggStatusesFor (m : List AggRow) (u : String) : List String :=
  match m.find? (fun a => a.url = u) with
  | some a => a.statuses
  | none => []

/-- The file set the aggregation state holds for a url. -/
def aggFilesFor (m : List AggRow) (u : String) : List String :=
  match m.find? (fun a => a.url = u) with
  | some a => a.files
  | none => []

/-- Finding a url's record in the specified aggregation shape. -/
theorem find?_specAggRow (rows : List InRow) (urls : List String) (u : String)
    (hmem : u ∈ urls) :
    ((urls.map fun x => AggRow.mk x (specAggStatuses rows x)
        (specAggFiles rows x)).find? fun a => a.url = u)
      = some (AggRow.mk u (specAggStatuses rows u) (specAggFiles rows u)) := by
  induction urls with
  | nil => cases hmem
  | cons x xs ih =>
    rcases List.mem_cons.mp hmem with rfl | hmem'
    · simp [List.find?_cons]
    · by_cases hx : x = u
      · subst hx; simp [List.find?_cons]
      · simp only [List.map_cons, List.find?_cons]
        have hcond : (decide ((AggRow.mk x (specAggStatuses rows x)
            (specAggFiles rows x)).url = u)) = false := by simpa using hx
        rw [hcond]
        exact ih hmem'

/-- Counterexample to C7: a row with a non-empty url and an empty status
contributes nothing to the url's status set — the source collects a
status only `if status:`, while the claim says every row's status is
collected. -/
theorem C7_counterexample :
    pyStrip (InRow.mk "A" "" "").url ≠ "" ∧
    aggScan [InRow.mk "A" "" ""] = [AggRow.mk "A" [] []] ∧
    pyStrip (InRow.mk "A" "" "").status ∉
      aggStatusesFor (aggScan [InRow.mk "A" "" ""]) (pyStrip (InRow.mk "A" "" "").url) := by
  refine ⟨by decide, rfl, by decide⟩

/-- C7 amended: for every aggregator input row with a non-empty url, the
trimmed status is collected into that url's status set only when it is
non-empty (exactly as the response-file path is), and the empty string is
never in a status set. -/
theorem C7_collection (rows : List InRow) (r : InRow) (hr : r ∈ rows)
    (hu : pyStrip r.url ≠ "") :
    (pyStrip r.status ≠ "" →
      pyStrip r.status ∈ aggStatusesFor (aggScan rows) (pyStrip r.url)) ∧
    (pyStrip r.response_json_file ≠ "" →
      pyStrip r.response_json_file ∈ aggFilesFor (aggScan rows) (pyStrip r.url)) ∧
    "" ∉ aggStatusesFor (aggScan rows) (pyStrip r.url) := by
  have hmem : pyStrip r.url ∈ specAggUrls rows :=
    (mem_specAggUrls rows (pyStrip r.url)).mpr ⟨hu, r, hr, rfl⟩
  have hfind := find?_specAggRow rows (specAggUrls rows) (pyStrip r.url) hmem
  have hstat : aggStatusesFor (aggScan rows) (pyStrip r.url)
      = specAggStatuses rows (pyStrip r.url) := by
    rw [aggStatusesFor, aggScan_eq, hfind]
  have hfile : aggFilesFor (aggScan rows) (pyStrip r.url)
      = specAggFiles rows (pyStrip r.url) := by
    rw [aggFilesFor, aggScan_eq, hfind]
  refine ⟨fun hs => ?_, fun hf => ?_, fun habs => ?_⟩
  · rw [hstat, specAggStatuses, collectVals, mem_firstSeen, List.mem_filter,
      List.mem_map]
    exact ⟨⟨r, List.mem_filter.mpr ⟨hr, by simp⟩, rfl⟩, by simpa using hs⟩
  · rw [hfile, specAggFiles, collectVals, mem_firstSeen, List.mem_filter,
      List.mem_map]
    exact ⟨⟨r, List.mem_filter.mpr ⟨hr, by simp⟩, rfl⟩, by simpa using hf⟩
  · rw [hstat, specAggStatuses, collectVals, mem_firstSeen,
      List.mem_filter] at habs
    simpa using habs.2

/-- Witness for the amended C7 on a concrete one-row input. -/
theorem C7_collection_witness :
    (pyStrip "200" ≠ "" →
      pyStrip "200" ∈ aggStatusesFor (aggScan [InRow.mk "A" "200" "f"]) (pyStrip "A")) ∧
    (pyStrip "f" ≠ "" →
      pyStrip "f" ∈ aggFilesFor (aggScan [InRow.mk "A" "200" "f"]) (pyStrip "A")) ∧
    "" ∉ aggStatusesFor (aggScan [InRow.mk "A" "200" "f"]) (pyStrip "A") :=
  C7_collection [InRow.mk "A" "200" "f"] (InRow.mk "A" "200" "f")
    (List.mem_singleton.mpr rfl) (by decide)

end Har
